import Mathlib

/-!
Shallow embedding of the coordination layer of the flashprog library
(src/libflashrom.c): the probe engine, the layout subsystem (Intel
descriptor and fmap population) and the write-protection subsystem.
External collaborators (transports, binary codecs, the allocator) are
modelled as parameters; integer return codes are Nat.
-/

namespace Flashprog

/-! ## Probe engine (flashrom_flash_probe)

A registered master (transport) is modelled by the set of chip-table
indices its probe matches, as a list of booleans indexed by chip index.
probe_flash(master, start) returns the first matching index that is
greater than or equal to start, or none (the C code returns -1). -/

/-- First index i with start ≤ i and m at i true, as in probe_flash
iterating the chip table from the given start index. -/
def probe_flash : List Bool → Nat → Option Nat
  | [], _ => none
  | b :: rest, 0 => if b then some 0 else Option.map Nat.succ (probe_flash rest 0)
  | _ :: rest, Nat.succ s => Option.map Nat.succ (probe_flash rest s)

/-- Total number of probe matches a master has. -/
def matchCount (m : List Bool) : Nat := m.count true

/-- Total number of probe matches across the whole registry. -/
def totalMatches (masters : List (List Bool)) : Nat :=
  (masters.map matchCount).sum

/-- The loop of flashrom_flash_probe over registered_masters, carrying the
running return code (initially 2).  When no chip has been found yet
(ret not 0), the master is probed from index 0; on a match at index k the
same master is immediately re-probed from k + 1 and any second match makes
the result 3 (break).  Once a chip has been found (ret = 0), each further
master is probed from index 0 (flash_idx stays -1 in the C code, so
flash_idx + 1 = 0) and any match makes the result 3. -/
def probeLoop : List (List Bool) → Nat → Nat
  | [], ret => ret
  | m :: rest, ret =>
    if ret = 0 then
      match probe_flash m 0 with
      | some _ => 3
      | none => probeLoop rest 0
    else
      match probe_flash m 0 with
      | none => probeLoop rest ret
      | some k =>
        match probe_flash m (k + 1) with
        | some _ => 3
        | none => probeLoop rest 0

/-- Result of flashrom_flash_probe: the return code, whether *flashctx is
left set (non-NULL), and how many context allocations are still live at
return (leak accounting). -/
structure ProbeOutcome where
  ret : Nat
  ctxSet : Bool
  liveAllocs : Nat
  deriving Repr, DecidableEq

/-- flashrom_flash_probe.  allocOk models whether the malloc of *flashctx
succeeds; on failure the code returns 1 with *flashctx = NULL.  Otherwise
the probe loop runs and, when the final code is nonzero, the context is
freed and *flashctx reset to NULL. -/
def flashrom_flash_probe (allocOk : Bool) (masters : List (List Bool)) : ProbeOutcome :=
  if allocOk = false then
    ⟨1, false, 0⟩
  else
    let ret := probeLoop masters 2
    if ret ≠ 0 then ⟨ret, false, 0⟩ else ⟨0, true, 1⟩

/-! ## Flash context and operational flags
(flashrom_flag_set / flashrom_flag_get)

The context binds a chip, a registered master (transport), an optional
layout reference and the four boolean flags.  Chip and layout references
are abstract identifiers here; the master carries the bus bitmask the
write-protection gate inspects. -/

/-- Bus class bitmask declared by a registered master.  Modelled from the
spec: the bus_type flag values live in flash.h, which is not part of the
three source files; the serial-peripheral bus class is one fixed bit. -/
def BUS_SPI : Nat := 8

/-- A registered master, reduced to what the core inspects: the bitmask of
bus classes it supports. -/
structure Master where
  buses_supported : Nat
  deriving Repr, DecidableEq

/-- The four boolean flags of struct flashctx.flags used by the API. -/
structure Flags where
  force : Bool
  force_boardmismatch : Bool
  verify_after_write : Bool
  verify_whole_chip : Bool
  deriving Repr, DecidableEq

/-- enum flashrom_flag from libflashrom.h. -/
inductive FlashromFlag where
  | FLASHROM_FLAG_FORCE
  | FLASHROM_FLAG_FORCE_BOARDMISMATCH
  | FLASHROM_FLAG_VERIFY_AFTER_WRITE
  | FLASHROM_FLAG_VERIFY_WHOLE_CHIP
  deriving Repr, DecidableEq

/-- struct flashctx, reduced to the parts the claims touch: the chip
reference (abstract identifier), the master, the flag set and the layout
reference (abstract identifier or none). -/
structure FlashCtx where
  chip : Nat
  mst : Master
  flags : Flags
  layout : Option Nat
  deriving Repr, DecidableEq

open FlashromFlag in
/-- flashrom_flag_set: the switch assigns exactly one field of
flashctx.flags. -/
def flashrom_flag_set (flashctx : FlashCtx) (flag : FlashromFlag) (value : Bool) :
    FlashCtx :=
  match flag with
  | FLASHROM_FLAG_FORCE =>
      { flashctx with flags := { flashctx.flags with force := value } }
  | FLASHROM_FLAG_FORCE_BOARDMISMATCH =>
      { flashctx with flags := { flashctx.flags with force_boardmismatch := value } }
  | FLASHROM_FLAG_VERIFY_AFTER_WRITE =>
      { flashctx with flags := { flashctx.flags with verify_after_write := value } }
  | FLASHROM_FLAG_VERIFY_WHOLE_CHIP =>
      { flashctx with flags := { flashctx.flags with verify_whole_chip := value } }

open FlashromFlag in
/-- flashrom_flag_get: the switch reads exactly one field of
flashctx.flags. -/
def flashrom_flag_get (flashctx : FlashCtx) (flag : FlashromFlag) : Bool :=
  match flag with
  | FLASHROM_FLAG_FORCE => flashctx.flags.force
  | FLASHROM_FLAG_FORCE_BOARDMISMATCH => flashctx.flags.force_boardmismatch
  | FLASHROM_FLAG_VERIFY_AFTER_WRITE => flashctx.flags.verify_after_write
  | FLASHROM_FLAG_VERIFY_WHOLE_CHIP => flashctx.flags.verify_whole_chip

/-! ## Write-protection subsystem -/

/-- enum flashrom_wp_result values from libflashrom.h, as Nat codes. -/
def FLASHROM_WP_OK : Nat := 0

/-- FLASHROM_WP_ERR_OTHER from libflashrom.h. -/
def FLASHROM_WP_ERR_OTHER : Nat := 2

/-- enum flashrom_wp_mode from libflashrom.h. -/
inductive WpMode where
  | disabled
  | hardware
  | power_cycle
  | permanent
  deriving Repr, DecidableEq

/-- A protection range: start address and length. -/
structure WpRange where
  start : Nat
  len : Nat
  deriving Repr, DecidableEq

/-- struct flashrom_wp_cfg: protection mode and range. -/
structure WpCfg where
  mode : WpMode
  range : WpRange
  deriving Repr, DecidableEq

/-- struct flashrom_wp_ranges: an owned list of (start, len) pairs; the
count field of the C struct is the length of the list. -/
structure WpRanges where
  ranges : List WpRange
  deriving Repr, DecidableEq

/-- flashrom_wp_write_cfg.  The underlying SPI implementation wp_write_cfg
lives outside this file and is a parameter; it may return any code and
alter the context.  The result carries the return code, the context after
the call and the number of underlying write-protect calls made. -/
def flashrom_wp_write_cfg (wp_write_cfg : FlashCtx → WpCfg → Nat × FlashCtx)
    (flash : FlashCtx) (cfg : WpCfg) : Nat × FlashCtx × Nat :=
  if flash.mst.buses_supported &&& BUS_SPI ≠ 0 then
    let r := wp_write_cfg flash cfg
    (r.1, r.2, 1)
  else
    (FLASHROM_WP_ERR_OTHER, flash, 0)

/-- flashrom_wp_read_cfg.  The underlying wp_read_cfg is a parameter that
populates the configuration from hardware; the result carries the return
code, the configuration and context after the call, and the number of
underlying calls made. -/
def flashrom_wp_read_cfg (wp_read_cfg : WpCfg → FlashCtx → Nat × WpCfg × FlashCtx)
    (cfg : WpCfg) (flash : FlashCtx) : Nat × WpCfg × FlashCtx × Nat :=
  if flash.mst.buses_supported &&& BUS_SPI ≠ 0 then
    let r := wp_read_cfg cfg flash
    (r.1, r.2.1, r.2.2, 1)
  else
    (FLASHROM_WP_ERR_OTHER, cfg, flash, 0)

/-- flashrom_wp_get_available_ranges.  The underlying
wp_get_available_ranges is a parameter; the result carries the return
code, the produced list (if any), the context after the call, and the
number of underlying calls made. -/
def flashrom_wp_get_available_ranges
    (wp_get_available_ranges : FlashCtx → Nat × Option WpRanges × FlashCtx)
    (flash : FlashCtx) : Nat × Option WpRanges × FlashCtx × Nat :=
  if flash.mst.buses_supported &&& BUS_SPI ≠ 0 then
    let r := wp_get_available_ranges flash
    (r.1, r.2.1, r.2.2, 1)
  else
    (FLASHROM_WP_ERR_OTHER, none, flash, 0)

/-- flashrom_wp_ranges_get_range: bounds-checked indexed access.  The
second component models the caller's start/len outputs: none means they
were not written. -/
def flashrom_wp_ranges_get_range (list : WpRanges) (index : Nat) :
    Nat × Option (Nat × Nat) :=
  if h : index < list.ranges.length then
    let r := list.ranges.get ⟨index, h⟩
    (0, some (r.start, r.len))
  else
    (FLASHROM_WP_ERR_OTHER, none)

/-- flashrom_wp_ranges_get_count. -/
def flashrom_wp_ranges_get_count (list : WpRanges) : Nat :=
  list.ranges.length

/-! ## Layout subsystem -/

/-- Maximum number of regions in a layout.  Modelled from the spec: the
constant MAX_ROMLAYOUT lives in layout.h, which is not among the source
files; the spec only requires a fixed maximum region count. -/
def MAX_ROMLAYOUT : Nat := 128

/-- Width of the non-terminated fmap area name field.  Modelled from the
spec: FMAP_STRLEN lives in fmap.h, which is not among the source files;
the spec only requires a fixed, documented width. -/
def FMAP_STRLEN : Nat := 32

/-- strndup(s, n) restricted to what parse_fmap needs: the copied name is
the bytes of s before the first NUL, at most n of them. -/
def strndup (s : List Nat) (n : Nat) : List Nat :=
  (s.take n).takeWhile (fun b => decide (b ≠ 0))

/-- struct romentry as populated by flashrom_layout_parse_fmap: start and
end offsets (end inclusive, computed in 32-bit unsigned arithmetic), the
included flag and the copied name. -/
structure RomEntry where
  start : Nat
  end_ : Nat
  included : Bool
  name : List Nat
  deriving Repr, DecidableEq

/-- struct flashrom_layout: the entry array together with num_entries,
modelled as a list whose length is num_entries. -/
structure FlashromLayout where
  entries : List RomEntry
  deriving Repr, DecidableEq

/-- One fmap area: offset, size and the fixed-width non-terminated name
field. -/
structure FmapArea where
  offset : Nat
  size : Nat
  name : List Nat
  deriving Repr, DecidableEq

/-- struct fmap reduced to its area list; nareas is the length. -/
structure Fmap where
  areas : List FmapArea
  deriving Repr, DecidableEq

/-- The append loop of flashrom_layout_parse_fmap.  strndupOk models the
allocator: whether the strndup for the i-th appended area succeeds.  On a
strndup failure the loop stops with code 1; entries appended before the
failure stay (num_entries was already advanced for them). -/
def fmapAppendLoop (strndupOk : Nat → Bool) :
    List FmapArea → Nat → FlashromLayout → Nat × FlashromLayout
  | [], _, l => (0, l)
  | a :: rest, i, l =>
    if strndupOk i then
      let entry : RomEntry :=
        ⟨a.offset % 2 ^ 32, (a.offset + a.size + (2 ^ 32 - 1)) % 2 ^ 32,
          false, strndup a.name FMAP_STRLEN⟩
      fmapAppendLoop strndupOk rest (i + 1) ⟨l.entries ++ [entry]⟩
    else
      (1, l)

/-- flashrom_layout_parse_fmap: takes the current state of the global
layout and the parsed fmap (none models a NULL fmap pointer); returns the
return code, the new state of the global layout, and whether the caller's
layout pointer was set. -/
def flashrom_layout_parse_fmap (strndupOk : Nat → Bool) (l : FlashromLayout)
    (fmap : Option Fmap) : Nat × FlashromLayout × Bool :=
  match fmap with
  | none => (1, l, false)
  | some f =>
    if l.entries.length + f.areas.length > MAX_ROMLAYOUT then
      (1, l, false)
    else
      let r := fmapAppendLoop strndupOk f.areas 0 l
      if r.1 ≠ 0 then (1, r.2, false) else (0, r.2, true)

/-! ## Intel descriptor layout reading (flashrom_layout_read_from_ifd) -/

/-- Observable events of one run of flashrom_layout_read_from_ifd:
prepare is logged when prepare_flash_access succeeds (exclusive access is
held), finalize when finalize_flash_access runs, read when the chip read
is attempted, codec when layout_from_ich_descriptors is invoked. -/
inductive IfdEvent where
  | prepare
  | finalize
  | read
  | codec
  deriving Repr, DecidableEq

/-- struct ich_layout reduced to what the comparison reads: the region
count (base.num_entries) and the raw bytes of the fixed-size entries
array. -/
structure IchLayout where
  num_entries : Nat
  entries : List Nat
  deriving Repr, DecidableEq

/-- Result of flashrom_layout_read_from_ifd: return code, the layout
handed to the caller (none when the out-pointer was not set) and the event
trace. -/
structure IfdResult where
  ret : Nat
  layoutOut : Option IchLayout
  events : List IfdEvent
  deriving Repr, DecidableEq

/-- flashrom_layout_read_from_ifd.  littleEndian models the compile-time
__FLASHROM_LITTLE_ENDIAN__ gate; on a non-matching host the function
returns 6 before doing anything.  The external collaborators are
parameters: the two mallocs, prepare_flash_access, the chip read of 4096
bytes at offset 0 (none models a failed read) and the descriptor codec
layout_from_ich_descriptors (none models a parse failure).  The code
mallocs (failure: 1, nothing acquired), acquires exclusive access
(failure: 1), reads the descriptor (failure: 2), parses it (failure: 3),
optionally parses the dump (failure: 4) and compares region counts and
raw entry bytes (mismatch: 5). -/
def flashrom_layout_read_from_ifd (littleEndian : Bool)
    (descMallocOk chipLayoutMallocOk prepareOk : Bool)
    (chipRead : Option (List Nat)) (codec : List Nat → Nat → Option IchLayout)
    (dump : Option (List Nat)) (len : Nat) : IfdResult :=
  if littleEndian = false then ⟨6, none, []⟩
  else if descMallocOk = false ∨ chipLayoutMallocOk = false then
    ⟨1, none, []⟩
  else if prepareOk = false then ⟨1, none, []⟩
  else
    match chipRead with
    | none => ⟨2, none, [.prepare, .read, .finalize]⟩
    | some desc =>
      match codec desc 4096 with
      | none => ⟨3, none, [.prepare, .read, .codec, .finalize]⟩
      | some chip_layout =>
        match dump with
        | none => ⟨0, some chip_layout, [.prepare, .read, .codec, .finalize]⟩
        | some d =>
          match codec d len with
          | none => ⟨4, none, [.prepare, .read, .codec, .codec, .finalize]⟩
          | some dump_layout =>
            if chip_layout.num_entries ≠ dump_layout.num_entries
                ∨ chip_layout.entries ≠ dump_layout.entries then
              ⟨5, none, [.prepare, .read, .codec, .codec, .finalize]⟩
            else
              ⟨0, some chip_layout, [.prepare, .read, .codec, .codec, .finalize]⟩

/-! ## Fmap population paths
(flashrom_layout_read_fmap_from_rom / _from_buffer) -/

/-- Events of the fmap population paths: readRom marks the
fmap_read_from_rom call (chip access plus signature scan), readBuffer
the fmap_read_from_buffer call (buffer decode). -/
inductive FmapEvent where
  | readRom
  | readBuffer
  deriving Repr, DecidableEq

/-- Result of an fmap population call: return code, the state of the
shared global layout after the call, whether the caller's layout pointer
was set, and the trace of external read/decode calls. -/
structure FmapResult where
  ret : Nat
  globalLayout : FlashromLayout
  layoutSet : Bool
  events : List FmapEvent
  deriving Repr, DecidableEq

/-- flashrom_layout_read_fmap_from_rom.  On a non-little-endian host the
function returns 3 before doing anything.  Otherwise fmap_read_from_rom
(external, modelled as a parameter returning the located fmap or none on
failure) is called; a failed read returns 1, then parse_fmap appends the
areas to the global layout and a parse_fmap failure also makes the call
return 1. -/
def flashrom_layout_read_fmap_from_rom (littleEndian : Bool)
    (fmapReadFromRom : Nat → Nat → Option Fmap) (strndupOk : Nat → Bool)
    (globalLayout : FlashromLayout) (offset len : Nat) : FmapResult :=
  if littleEndian = false then ⟨3, globalLayout, false, []⟩
  else
    match fmapReadFromRom offset len with
    | none => ⟨1, globalLayout, false, [.readRom]⟩
    | some f =>
      let r := flashrom_layout_parse_fmap strndupOk globalLayout (some f)
      if r.1 ≠ 0 then ⟨1, r.2.1, r.2.2, [.readRom]⟩
      else ⟨0, r.2.1, r.2.2, [.readRom]⟩

/-- flashrom_layout_read_fmap_from_buffer.  On a non-little-endian host
the function returns 3 before doing anything.  A NULL buffer or zero size
returns 1 without decoding; a failed fmap_read_from_buffer returns 1; a
parse_fmap failure returns 1. -/
def flashrom_layout_read_fmap_from_buffer (littleEndian : Bool)
    (fmapReadFromBuffer : List Nat → Nat → Option Fmap) (strndupOk : Nat → Bool)
    (globalLayout : FlashromLayout) (buf : Option (List Nat)) (size : Nat) :
    FmapResult :=
  if littleEndian = false then ⟨3, globalLayout, false, []⟩
  else
    match buf with
    | none => ⟨1, globalLayout, false, []⟩
    | some bytes =>
      if size = 0 then ⟨1, globalLayout, false, []⟩
      else
        match fmapReadFromBuffer bytes size with
        | none => ⟨1, globalLayout, false, [.readBuffer]⟩
        | some f =>
          let r := flashrom_layout_parse_fmap strndupOk globalLayout (some f)
          if r.1 ≠ 0 then ⟨1, r.2.1, r.2.2, [.readBuffer]⟩
          else ⟨0, r.2.1, r.2.2, [.readBuffer]⟩

/-! ## Lemmas and claim theorems -/

lemma probe_flash_zero_none_iff (m : List Bool) :
    probe_flash m 0 = none ↔ matchCount m = 0 := by
  induction m with
  | nil => simp [probe_flash, matchCount]
  | cons b rest ih =>
    cases b with
    | true => simp [probe_flash, matchCount, List.count_cons]
    | false =>
      simp only [probe_flash, if_neg (by simp : ¬(false = true)), Option.map_eq_none']
      simpa [matchCount, List.count_cons] using ih

lemma probe_flash_second_none_iff (m : List Bool) :
    ∀ k, probe_flash m 0 = some k →
      (probe_flash m (k + 1) = none ↔ matchCount m = 1) := by
  induction m with
  | nil => intro k h; exact Option.noConfusion h
  | cons b rest ih =>
    intro k h
    cases b with
    | true =>
      rw [show probe_flash (true :: rest) 0 = some 0 from rfl] at h
      injection h with hk
      subst hk
      show Option.map Nat.succ (probe_flash rest 0) = none ↔ _
      rw [Option.map_eq_none', probe_flash_zero_none_iff]
      simp only [matchCount, List.count_cons]
      simp
    | false =>
      rw [show probe_flash (false :: rest) 0
          = Option.map Nat.succ (probe_flash rest 0) from rfl] at h
      rcases Option.map_eq_some'.mp h with ⟨j, hj, hk⟩
      subst hk
      show Option.map Nat.succ (probe_flash rest (j + 1)) = none ↔ _
      rw [Option.map_eq_none', ih j hj]
      simp only [matchCount, List.count_cons]
      simp

lemma probe_flash_some_count_pos {m : List Bool} {k : Nat}
    (h : probe_flash m 0 = some k) : 1 ≤ matchCount m := by
  by_contra hc
  have h0 : matchCount m = 0 := by omega
  rw [← probe_flash_zero_none_iff] at h0
  rw [h0] at h
  exact Option.noConfusion h

lemma probeLoop_spec (masters : List (List Bool)) :
    probeLoop masters 2 = (if totalMatches masters = 0 then 2
      else if totalMatches masters = 1 then 0 else 3)
    ∧ probeLoop masters 0 = (if totalMatches masters = 0 then 0 else 3) := by
  induction masters with
  | nil => simp [probeLoop, totalMatches]
  | cons m rest ih =>
    have htot : totalMatches (m :: rest) = matchCount m + totalMatches rest := by
      simp [totalMatches]
    constructor
    · rw [show probeLoop (m :: rest) 2 = (match probe_flash m 0 with
          | none => probeLoop rest 2
          | some k =>
            match probe_flash m (k + 1) with
            | some _ => 3
            | none => probeLoop rest 0) from rfl]
      rcases h1 : probe_flash m 0 with _ | k
      · have hm : matchCount m = 0 := (probe_flash_zero_none_iff m).mp h1
        show probeLoop rest 2 = _
        rw [ih.1, htot, hm]
        simp
      · have hpos := probe_flash_some_count_pos h1
        show (match probe_flash m (k + 1) with
          | some _ => 3
          | none => probeLoop rest 0) = _
        rcases h2 : probe_flash m (k + 1) with _ | j
        · have hm : matchCount m = 1 :=
            (probe_flash_second_none_iff m k h1).mp h2
          show probeLoop rest 0 = _
          rw [ih.2, htot, hm]
          rcases Nat.eq_zero_or_pos (totalMatches rest) with hr | hr
          · rw [hr]; simp
          · rw [if_neg (by omega), if_neg (by omega), if_neg (by omega)]
        · have hm : matchCount m ≠ 1 := by
            intro he
            have hn := (probe_flash_second_none_iff m k h1).mpr he
            rw [hn] at h2
            exact Option.noConfusion h2
          show (3 : Nat) = _
          rw [htot]
          rw [if_neg (by omega), if_neg (by omega)]
    · rw [show probeLoop (m :: rest) 0 = (match probe_flash m 0 with
          | some _ => 3
          | none => probeLoop rest 0) from rfl]
      rcases h1 : probe_flash m 0 with _ | k
      · have hm : matchCount m = 0 := (probe_flash_zero_none_iff m).mp h1
        show probeLoop rest 0 = _
        rw [ih.2, htot, hm]
        simp
      · have hpos := probe_flash_some_count_pos h1
        show (3 : Nat) = _
        rw [htot, if_neg (by omega)]

/-- C1: flashrom_flash_probe returns 0 (with the context set) exactly when
the registry holds exactly one probe match, 2 when it holds none, 3 when it
holds two or more (the second match being found by re-probing the matching
master one past the first match and by probing every later master), and 1
when the context allocation fails. -/
theorem probe_outcome_characterization (masters : List (List Bool)) :
    flashrom_flash_probe false masters = ⟨1, false, 0⟩
    ∧ ((flashrom_flash_probe true masters).ret = 0 ↔ totalMatches masters = 1)
    ∧ ((flashrom_flash_probe true masters).ret = 2 ↔ totalMatches masters = 0)
    ∧ ((flashrom_flash_probe true masters).ret = 3 ↔ 2 ≤ totalMatches masters)
    ∧ ((flashrom_flash_probe true masters).ctxSet = true ↔ totalMatches masters = 1) := by
  have hloop := (probeLoop_spec masters).1
  refine ⟨rfl, ?_⟩
  show ((if probeLoop masters 2 ≠ 0 then (⟨probeLoop masters 2, false, 0⟩ : ProbeOutcome)
      else ⟨0, true, 1⟩).ret = 0 ↔ _) ∧ _
  rw [hloop]
  rcases Nat.eq_zero_or_pos (totalMatches masters) with h0 | h0
  · rw [h0]; simp [flashrom_flash_probe, hloop, h0]
  · rcases Nat.lt_or_ge (totalMatches masters) 2 with h1 | h1
    · have he : totalMatches masters = 1 := by omega
      simp [flashrom_flash_probe, hloop, he]
    · have hne0 : totalMatches masters ≠ 0 := by omega
      have hne1 : totalMatches masters ≠ 1 := by omega
      simp [flashrom_flash_probe, hloop, hne0, hne1]
      omega

/-- C4: whenever flashrom_flash_probe returns a nonzero code, the context
pointer is left NULL and no context allocation is still live. -/
theorem probe_no_leak_on_failure (allocOk : Bool) (masters : List (List Bool))
    (h : (flashrom_flash_probe allocOk masters).ret ≠ 0) :
    (flashrom_flash_probe allocOk masters).ctxSet = false
    ∧ (flashrom_flash_probe allocOk masters).liveAllocs = 0 := by
  cases allocOk with
  | false => exact ⟨rfl, rfl⟩
  | true =>
    unfold flashrom_flash_probe at h ⊢
    simp only [if_neg (by simp : ¬(true = false))] at h ⊢
    by_cases hz : probeLoop masters 2 ≠ 0
    · rw [if_pos hz]; exact ⟨rfl, rfl⟩
    · rw [if_neg hz] at h; simp at h

/-- Witness for probe_no_leak_on_failure: the empty registry yields the
not-found code 2 with the context freed. -/
theorem probe_no_leak_witness :
    (flashrom_flash_probe true []).ret ≠ 0
    ∧ (flashrom_flash_probe true []).ctxSet = false
    ∧ (flashrom_flash_probe true []).liveAllocs = 0 := by
  refine ⟨by decide, probe_no_leak_on_failure true [] (by decide)⟩

/-- C10: setting one flag changes exactly that flag: reading it back gives
the written value, every other flag reads as before, and the chip, master
and layout references of the context are untouched. -/
theorem flag_set_frame (flashctx : FlashCtx) (flag : FlashromFlag) (value : Bool) :
    flashrom_flag_get (flashrom_flag_set flashctx flag value) flag = value
    ∧ (∀ other : FlashromFlag, other ≠ flag →
        flashrom_flag_get (flashrom_flag_set flashctx flag value) other
          = flashrom_flag_get flashctx other)
    ∧ (flashrom_flag_set flashctx flag value).chip = flashctx.chip
    ∧ (flashrom_flag_set flashctx flag value).mst = flashctx.mst
    ∧ (flashrom_flag_set flashctx flag value).layout = flashctx.layout := by
  refine ⟨?_, ?_, ?_, ?_, ?_⟩
  · cases flag <;> rfl
  · intro other hne
    cases flag <;> cases other <;> first
      | exact absurd rfl hne
      | rfl
  · cases flag <;> rfl
  · cases flag <;> rfl
  · cases flag <;> rfl

/-- C2: on a context whose master does not declare the SPI bus class, all
three write-protect operations return FLASHROM_WP_ERR_OTHER at once, make
no underlying write-protect call, and leave the configuration and the
context unchanged. -/
theorem wp_bus_gate (uw : FlashCtx → WpCfg → Nat × FlashCtx)
    (ur : WpCfg → FlashCtx → Nat × WpCfg × FlashCtx)
    (ug : FlashCtx → Nat × Option WpRanges × FlashCtx)
    (flash : FlashCtx) (cfg : WpCfg)
    (h : flash.mst.buses_supported &&& BUS_SPI = 0) :
    flashrom_wp_write_cfg uw flash cfg = (FLASHROM_WP_ERR_OTHER, flash, 0)
    ∧ flashrom_wp_read_cfg ur cfg flash = (FLASHROM_WP_ERR_OTHER, cfg, flash, 0)
    ∧ flashrom_wp_get_available_ranges ug flash
        = (FLASHROM_WP_ERR_OTHER, none, flash, 0) := by
  refine ⟨?_, ?_, ?_⟩
  · unfold flashrom_wp_write_cfg
    rw [if_neg (by simp [h])]
  · unfold flashrom_wp_read_cfg
    rw [if_neg (by simp [h])]
  · unfold flashrom_wp_get_available_ranges
    rw [if_neg (by simp [h])]

/-- Witness for wp_bus_gate at a concrete non-SPI context. -/
theorem wp_bus_gate_witness :
    (⟨0, ⟨1⟩, ⟨false, false, false, false⟩, none⟩ : FlashCtx).mst.buses_supported
        &&& BUS_SPI = 0
    ∧ flashrom_wp_write_cfg (fun f _ => (0, f))
        ⟨0, ⟨1⟩, ⟨false, false, false, false⟩, none⟩
        ⟨WpMode.disabled, ⟨0, 0⟩⟩
      = (FLASHROM_WP_ERR_OTHER, ⟨0, ⟨1⟩, ⟨false, false, false, false⟩, none⟩, 0) := by
  have hb : (⟨0, ⟨1⟩, ⟨false, false, false, false⟩, none⟩ : FlashCtx).mst.buses_supported
      &&& BUS_SPI = 0 := by decide
  exact ⟨hb, (wp_bus_gate (fun f _ => (0, f)) (fun c f => (0, c, f))
    (fun f => (0, none, f)) _ ⟨WpMode.disabled, ⟨0, 0⟩⟩ hb).1⟩

/-- C8: indexed range-list access with an index at or past the count fails
with FLASHROM_WP_ERR_OTHER and writes neither output; with an index below
the count it returns 0 and the stored pair, so index count - 1 returns the
last-appended range. -/
theorem wp_ranges_get_range_bounds (list : WpRanges) (index : Nat) :
    (flashrom_wp_ranges_get_count list ≤ index →
      flashrom_wp_ranges_get_range list index = (FLASHROM_WP_ERR_OTHER, none))
    ∧ (∀ h : index < flashrom_wp_ranges_get_count list,
        flashrom_wp_ranges_get_range list index
          = (0, some ((list.ranges.get ⟨index, h⟩).start,
              (list.ranges.get ⟨index, h⟩).len)))
    ∧ (∀ last : WpRange, list.ranges.getLast? = some last →
        flashrom_wp_ranges_get_range list (flashrom_wp_ranges_get_count list - 1)
          = (0, some (last.start, last.len))) := by
  refine ⟨?_, ?_, ?_⟩
  · intro hle
    unfold flashrom_wp_ranges_get_range
    rw [dif_neg (by exact Nat.not_lt.mpr hle)]
  · intro h
    have h' : index < list.ranges.length := h
    unfold flashrom_wp_ranges_get_range
    rw [dif_pos h']
  · intro last hlast
    have hne : list.ranges ≠ [] := by
      intro he
      rw [he] at hlast
      exact Option.noConfusion hlast
    have hpos : 0 < list.ranges.length := List.length_pos.mpr hne
    have hlt : list.ranges.length - 1 < list.ranges.length := by omega
    unfold flashrom_wp_ranges_get_range flashrom_wp_ranges_get_count
    rw [dif_pos hlt]
    have hget : list.ranges.get ⟨list.ranges.length - 1, hlt⟩ = last := by
      have h1 : list.ranges.getLast hne = last := by
        rw [List.getLast?_eq_getLast list.ranges hne] at hlast
        exact Option.some.inj hlast
      rw [← h1]
      exact (List.getLast_eq_get list.ranges hne).symm
    rw [hget]

/-- Witness for wp_ranges_get_range_bounds on a two-element list: access
at the count fails, access at count - 1 returns the last-appended pair. -/
theorem wp_ranges_get_range_witness :
    flashrom_wp_ranges_get_count ⟨[⟨0, 4⟩, ⟨4, 8⟩]⟩ ≤ 2
    ∧ flashrom_wp_ranges_get_range ⟨[⟨0, 4⟩, ⟨4, 8⟩]⟩ 2
        = (FLASHROM_WP_ERR_OTHER, none)
    ∧ (⟨[⟨0, 4⟩, ⟨4, 8⟩]⟩ : WpRanges).ranges.getLast? = some ⟨4, 8⟩
    ∧ flashrom_wp_ranges_get_range ⟨[⟨0, 4⟩, ⟨4, 8⟩]⟩
        (flashrom_wp_ranges_get_count ⟨[⟨0, 4⟩, ⟨4, 8⟩]⟩ - 1)
      = (0, some (4, 8)) := by
  refine ⟨by decide, (wp_ranges_get_range_bounds ⟨[⟨0, 4⟩, ⟨4, 8⟩]⟩ 2).1 (by decide),
    by decide, ?_⟩
  exact (wp_ranges_get_range_bounds ⟨[⟨0, 4⟩, ⟨4, 8⟩]⟩ 2).2.2 ⟨4, 8⟩ (by decide)

lemma parse_fmap_overflow (strndupOk : Nat → Bool)
    (l : FlashromLayout) (f : Fmap)
    (h : l.entries.length + f.areas.length > MAX_ROMLAYOUT) :
    flashrom_layout_parse_fmap strndupOk l (some f) = (1, l, false) := by
  show (if l.entries.length + f.areas.length > MAX_ROMLAYOUT then
      ((1 : Nat), l, false)
    else
      let r := fmapAppendLoop strndupOk f.areas 0 l
      if r.1 ≠ 0 then (1, r.2, false) else (0, r.2, true)) = (1, l, false)
  rw [if_pos h]

/-- C3: when the current region count plus the area count of the fmap
exceeds MAX_ROMLAYOUT, parse_fmap fails with 1 and the global layout is
returned exactly as it was: nothing was appended. -/
theorem parse_fmap_overflow_atomic (strndupOk : Nat → Bool)
    (l : FlashromLayout) (f : Fmap)
    (h : l.entries.length + f.areas.length > MAX_ROMLAYOUT) :
    flashrom_layout_parse_fmap strndupOk l (some f) = (1, l, false) :=
  parse_fmap_overflow strndupOk l f h

/-- Witness for parse_fmap_overflow_atomic: appending 129 areas to an
empty global layout overflows the maximum of 128 and leaves the layout
empty. -/
theorem parse_fmap_overflow_witness :
    (⟨[]⟩ : FlashromLayout).entries.length
        + (⟨List.replicate 129 ⟨0, 1, []⟩⟩ : Fmap).areas.length > MAX_ROMLAYOUT
    ∧ flashrom_layout_parse_fmap (fun _ => true) ⟨[]⟩
        (some ⟨List.replicate 129 ⟨0, 1, []⟩⟩) = (1, ⟨[]⟩, false) := by
  have h : (⟨[]⟩ : FlashromLayout).entries.length
      + (⟨List.replicate 129 ⟨0, 1, []⟩⟩ : Fmap).areas.length > MAX_ROMLAYOUT := by
    simp [MAX_ROMLAYOUT]
  exact ⟨h, parse_fmap_overflow_atomic (fun _ => true) ⟨[]⟩
    ⟨List.replicate 129 ⟨0, 1, []⟩⟩ h⟩

/-- C5: in every run of flashrom_layout_read_from_ifd the number of
finalize_flash_access calls equals the number of successful
prepare_flash_access acquisitions, and access is acquired at most once:
whenever the acquire succeeds, the release runs exactly once before
return, on the success path and on every error path. -/
theorem ifd_acquire_release_balance (littleEndian dmOk clmOk pOk : Bool)
    (chipRead : Option (List Nat)) (codec : List Nat → Nat → Option IchLayout)
    (dump : Option (List Nat)) (len : Nat) :
    ((flashrom_layout_read_from_ifd littleEndian dmOk clmOk pOk chipRead codec
        dump len).events.count IfdEvent.finalize
      = (flashrom_layout_read_from_ifd littleEndian dmOk clmOk pOk chipRead codec
        dump len).events.count IfdEvent.prepare)
    ∧ (flashrom_layout_read_from_ifd littleEndian dmOk clmOk pOk chipRead codec
        dump len).events.count IfdEvent.prepare ≤ 1 := by
  unfold flashrom_layout_read_from_ifd
  repeat' split
  all_goals simp

/-- C6: with a readable, parsable chip descriptor and a supplied dump, a
dump that parses but differs in region count or raw entry bytes yields
return code 5, distinct from 3 (chip unparsable) and 4 (dump unparsable);
a dump that fails to parse yields 4, never 5. -/
theorem ifd_mismatch_outcome (codec : List Nat → Nat → Option IchLayout)
    (dump : List Nat) (len : Nat) (desc : List Nat) (cl : IchLayout)
    (hcl : codec desc 4096 = some cl) :
    (∀ dl : IchLayout, codec dump len = some dl →
      cl.num_entries ≠ dl.num_entries ∨ cl.entries ≠ dl.entries →
      (flashrom_layout_read_from_ifd true true true true (some desc) codec
        (some dump) len).ret = 5)
    ∧ (codec dump len = none →
      (flashrom_layout_read_from_ifd true true true true (some desc) codec
        (some dump) len).ret = 4)
    ∧ (5 : Nat) ≠ 3 ∧ (5 : Nat) ≠ 4 := by
  refine ⟨?_, ?_, by decide, by decide⟩
  · intro dl hdl hne
    simp [flashrom_layout_read_from_ifd, hcl, hdl]
    rw [if_pos hne]
  · intro hnone
    simp [flashrom_layout_read_from_ifd, hcl, hnone]

/-- Witness for ifd_mismatch_outcome: the chip descriptor bytes [0] parse
to one region with raw entry bytes [0], the dump bytes [1] parse to two
regions with raw entry bytes [1]; the run returns the mismatch code 5. -/
theorem ifd_mismatch_witness :
    (fun (bytes : List Nat) (_ : Nat) =>
        if bytes = [0] then some (⟨1, [0]⟩ : IchLayout)
        else if bytes = [1] then some ⟨2, [1]⟩
        else none) [0] 4096 = some ⟨1, [0]⟩
    ∧ (flashrom_layout_read_from_ifd true true true true (some [0])
        (fun bytes _ =>
          if bytes = [0] then some ⟨1, [0]⟩
          else if bytes = [1] then some ⟨2, [1]⟩
          else none)
        (some [1]) 1).ret = 5 := by
  have h := ifd_mismatch_outcome
    (fun bytes _ =>
      if bytes = [0] then some ⟨1, [0]⟩
      else if bytes = [1] then some ⟨2, [1]⟩
      else none)
    [1] 1 [0] ⟨1, [0]⟩ (by decide)
  exact ⟨by decide, h.1 ⟨2, [1]⟩ (by decide) (by decide)⟩

/-- C7: on a host whose byte order does not match, read_from_ifd returns 6
and the two fmap operations return 3, each immediately: no chip read, no
codec call (empty event trace), the layout out-pointer is not set and the
global layout is unchanged. -/
theorem big_endian_host_gate (dmOk clmOk pOk : Bool)
    (chipRead : Option (List Nat)) (codec : List Nat → Nat → Option IchLayout)
    (dump : Option (List Nat)) (len : Nat)
    (readRom : Nat → Nat → Option Fmap) (sOk1 : Nat → Bool)
    (gl1 : FlashromLayout) (offset rlen : Nat)
    (readBuf : List Nat → Nat → Option Fmap) (sOk2 : Nat → Bool)
    (gl2 : FlashromLayout) (buf : Option (List Nat)) (size : Nat) :
    flashrom_layout_read_from_ifd false dmOk clmOk pOk chipRead codec dump len
        = ⟨6, none, []⟩
    ∧ flashrom_layout_read_fmap_from_rom false readRom sOk1 gl1 offset rlen
        = ⟨3, gl1, false, []⟩
    ∧ flashrom_layout_read_fmap_from_buffer false readBuf sOk2 gl2 buf size
        = ⟨3, gl2, false, []⟩ :=
  ⟨rfl, rfl, rfl⟩

set_option maxRecDepth 8000 in
/-- C9 divergence: flashrom_layout_read_fmap_from_rom returns 1 both when
the fmap cannot be read from the chip and when appending the parsed areas
into the shared layout fails (here: 129 areas overflow the maximum of
128), although its own doc comment reserves 2 for a failed read; the two
failure conditions do not produce distinct return values. -/
theorem fmap_rom_failure_codes_collide :
    (flashrom_layout_read_fmap_from_rom true (fun _ _ => none)
        (fun _ => true) ⟨[]⟩ 0 0).ret = 1
    ∧ (flashrom_layout_read_fmap_from_rom true
        (fun _ _ => some ⟨List.replicate 129 ⟨0, 1, []⟩⟩)
        (fun _ => true) ⟨[]⟩ 0 0).ret = 1 := by
  constructor
  · rfl
  · have h : (⟨[]⟩ : FlashromLayout).entries.length
        + (⟨List.replicate 129 ⟨0, 1, []⟩⟩ : Fmap).areas.length
        > MAX_ROMLAYOUT := by
      simp [MAX_ROMLAYOUT]
    have hp := parse_fmap_overflow (fun _ => true) ⟨[]⟩
      ⟨List.replicate 129 ⟨0, 1, []⟩⟩ h
    show (FmapResult.ret (
      let r := flashrom_layout_parse_fmap (fun _ => true) ⟨[]⟩
        (some ⟨List.replicate 129 ⟨0, 1, []⟩⟩);
      if r.1 ≠ 0 then
        (⟨1, r.2.1, r.2.2, [FmapEvent.readRom]⟩ : FmapResult)
      else ⟨0, r.2.1, r.2.2, [FmapEvent.readRom]⟩)) = 1
    rw [hp]
    rfl

/-- Witness for flag_set_frame: setting the force flag on a concrete
context leaves the verify-whole-chip flag as it was. -/
theorem flag_set_frame_witness :
    flashrom_flag_get (flashrom_flag_set ⟨0, ⟨8⟩, ⟨false, false, false, false⟩, none⟩
        FlashromFlag.FLASHROM_FLAG_FORCE true) FlashromFlag.FLASHROM_FLAG_FORCE = true
    ∧ FlashromFlag.FLASHROM_FLAG_VERIFY_WHOLE_CHIP ≠ FlashromFlag.FLASHROM_FLAG_FORCE
    ∧ flashrom_flag_get (flashrom_flag_set ⟨0, ⟨8⟩, ⟨false, false, false, false⟩, none⟩
        FlashromFlag.FLASHROM_FLAG_FORCE true) FlashromFlag.FLASHROM_FLAG_VERIFY_WHOLE_CHIP
      = flashrom_flag_get ⟨0, ⟨8⟩, ⟨false, false, false, false⟩, none⟩
        FlashromFlag.FLASHROM_FLAG_VERIFY_WHOLE_CHIP := by
  have h := flag_set_frame ⟨0, ⟨8⟩, ⟨false, false, false, false⟩, none⟩
    FlashromFlag.FLASHROM_FLAG_FORCE true
  exact ⟨h.1, by decide, h.2.1 FlashromFlag.FLASHROM_FLAG_VERIFY_WHOLE_CHIP (by decide)⟩

end Flashprog
